import Mathlib

/-!
Verification of the two-pass assembler (Open University course 20465 final
project).  The development shallowly embeds the C sources: the line parser
(`line_parser.c`, first revision), the symbol table (`symbol_table.c`), the
first pass (`first_pass.c`), the macro preprocessor (`preprocessor.c`, the
`strtok`-based revision) and the second-pass encoder (`second_pass.c`).

Conventions of the embedding:
* C strings are `List Char` (ASCII); a file is a `List String` of its lines
  with the trailing newline stripped (the parser trims whitespace anyway,
  and the preprocessor is modelled line-for-line).
* C `int` is `Int`; the 16-bit `WORD` container (`unsigned short`) is a
  `Nat` reduced modulo 2 ^ 16 at every store, exactly where the C code
  performs an implicit conversion.
* `NULL`-able results are `Option`; C functions returning an
  `error_code_t` are `Except Err` (with `ERROR_OK` the `.ok` case).
* The hash tables (symbol table, macro table) are association lists; the
  spec declares their iteration order unobservable.
* Loops whose iteration count is not structurally obvious take a fuel
  argument that strictly exceeds the length of the scanned cursor, so the
  fuel can never run out; all definitions are executable.
-/

namespace Assembler

/-! ## Character classification (C locale, `ctype.h`) -/

/-- C `isspace` in the C locale: space, tab, newline, vertical tab,
form feed, carriage return. -/
def isSpaceC (c : Char) : Bool :=
  c == ' ' || c == '\t' || c == '\n' || c == '\x0b' || c == '\x0c' || c == '\r'

/-- C `isdigit`. -/
def isDigitC (c : Char) : Bool := '0' ≤ c && c ≤ '9'

/-- C `isalpha` (ASCII letters). -/
def isAlphaC (c : Char) : Bool := ('A' ≤ c && c ≤ 'Z') || ('a' ≤ c && c ≤ 'z')

/-- C `isalnum`. -/
def isAlnumC (c : Char) : Bool := isAlphaC c || isDigitC c

/-! ## Whitespace / comment helpers (`line_parser.c`) -/

/-- C `trim_trailing_whitespace_inplace`. -/
def trim_trailing_whitespace (s : List Char) : List Char :=
  (s.reverse.dropWhile isSpaceC).reverse

/-- C `remove_comment_from_semicolon`: truncate at the first `;`. -/
def remove_comment_from_semicolon (s : List Char) : List Char :=
  s.takeWhile (fun c => c ≠ ';')

/-- The whitespace delimiter set `" \t\n\r"` used throughout the C code. -/
def wsDelims : List Char := [' ', '\t', '\n', '\r']

/-- C `next_token`: skip leading whitespace; if nothing is left return no
token; otherwise split at the first character of `delims` (`strpbrk`),
advance the cursor past it, and trim trailing whitespace from the token.
Returns `(token?, new cursor)`. -/
def next_token (s : List Char) (delims : List Char) : Option (List Char) × List Char :=
  let start := s.dropWhile isSpaceC
  match start with
  | [] => (none, [])
  | _ :: _ =>
    let tok := start.takeWhile (fun c => !(delims.contains c))
    let rest := start.dropWhile (fun c => !(delims.contains c))
    match rest with
    | [] => (some (trim_trailing_whitespace tok), [])
    | _ :: r => (some (trim_trailing_whitespace tok), r)

/-- When `next_token` yields a token, the returned cursor is strictly
shorter than the input; this bounds every tokenising loop. -/
theorem next_token_some_length {s delims tok rest}
    (h : next_token s delims = (some tok, rest)) : rest.length < s.length := by
  unfold next_token at h
  rcases hs : s.dropWhile isSpaceC with _ | ⟨c, cs⟩ <;> rw [hs] at h
  · simp at h
  · have hlen : (c :: cs).length ≤ s.length := by
      have := (List.dropWhile_sublist (l := s) (p := isSpaceC)).length_le
      rw [hs] at this; exact this
    simp only at h
    rcases hr : (c :: cs).dropWhile (fun x => !(delims.contains x)) with _ | ⟨d, ds⟩ <;>
      rw [hr] at h <;> simp only [Prod.mk.injEq] at h
    · cases h.2
      exact Nat.lt_of_lt_of_le (by simp) hlen
    · cases h.2
      have h1 : (d :: rest).length ≤ (c :: cs).length := by
        have := (List.dropWhile_sublist (l := c :: cs)
          (p := fun x => !(delims.contains x))).length_le
        rw [hr] at this; exact this
      exact Nat.lt_of_lt_of_le (Nat.lt_of_lt_of_le (by simp) h1) hlen

/-! ## Reserved keywords -/

/-- C `is_reserved_keyword` from `utils.c` (the one linked against the line
parser): mnemonics, dotted directives, registers, `mcro`/`mcrend`. -/
def reserved_keywords : List String :=
  ["mov", "cmp", "add", "sub", "not", "clr", "lea", "inc", "dec",
   "jmp", "bne", "red", "prn", "jsr", "rts", "stop",
   ".data", ".string", ".mat", ".entry", ".extern",
   "r0", "r1", "r2", "r3", "r4", "r5", "r6", "r7",
   "mcro", "mcrend"]

def is_reserved_keyword (s : List Char) : Bool :=
  reserved_keywords.contains (String.mk s)

/-- The preprocessor's own static `is_reserved_keyword` (in
`preprocessor.c`): directives without the dot, and `endmcro` instead of
`mcrend`. -/
def pp_reserved_keywords : List String :=
  ["mov", "cmp", "add", "sub", "not", "clr", "lea", "inc", "dec",
   "jmp", "bne", "red", "prn", "jsr", "rts", "stop",
   "data", "string", "mat", "entry", "extern",
   "r0", "r1", "r2", "r3", "r4", "r5", "r6", "r7",
   "mcro", "endmcro"]

def pp_is_reserved_keyword (s : String) : Bool :=
  pp_reserved_keywords.contains s

/-! ## Labels and integers -/

/-- C `is_valid_label`: nonempty, at most 30 characters
(`len >= MAX_LABEL_LENGTH`, i.e. ≥ 31, is rejected), starts with a letter,
continues alphanumerically, and is not a reserved keyword. -/
def is_valid_label (cs : List Char) : Bool :=
  match cs with
  | [] => false
  | c :: rest =>
    cs.length < 31 && isAlphaC c && rest.all isAlnumC && !(is_reserved_keyword cs)

/-- C `strtol(s, &endptr, 10)`: skip leading whitespace, optional sign, then
a maximal run of digits.  Returns `none` when no conversion was performed
(`endptr == s`), otherwise the value and the unconsumed remainder. -/
def strtol10 (s : List Char) : Option (Int × List Char) :=
  let t := s.dropWhile isSpaceC
  let signed : Bool × List Char :=
    match t with
    | '-' :: r => (true, r)
    | '+' :: r => (false, r)
    | _ => (false, t)
  let digits := signed.2.takeWhile isDigitC
  let rest := signed.2.dropWhile isDigitC
  match digits with
  | [] => none
  | _ :: _ =>
    let mag : Nat := digits.foldl (fun a c => a * 10 + (c.toNat - 48)) 0
    some (if signed.1 then -(mag : Int) else (mag : Int), rest)

/-- C `parse_integer`: the whole string must be one integer
(`*endptr != '\0' || endptr == s` is an error). -/
def parse_integer (s : List Char) : Option Int :=
  match strtol10 s with
  | none => none
  | some (v, rest) => if rest = [] then some v else none

/-- C `parse_register_token`: `r0`..`r7` give `0..7`, `r` followed by another
digit gives `-2`, anything else `-1`. -/
def parse_register_token (t : List Char) : Int :=
  match t with
  | ['r', d] =>
    if '0' ≤ d ∧ d ≤ '7' then ((d.toNat : Int) - 48)
    else if isDigitC d then -2
    else -1
  | _ => -1

/-! ## Parsed-line data model (`line_parser.h`) -/

inductive AddressingMode where
  | immediate
  | direct
  | matrixAccess
  | registerDirect
deriving DecidableEq, Repr

/-- The numeric value of the `addressing_mode_t` enum. -/
def AddressingMode.code : AddressingMode → Nat
  | .immediate => 0
  | .direct => 1
  | .matrixAccess => 2
  | .registerDirect => 3

/-- C `operand_t`: the tagged union, with the payload attached to the mode. -/
inductive Operand where
  | immediate (v : Int)
  | direct (label : String)
  | matrixAccess (label : String) (rowReg colReg : Nat)
  | registerDirect (reg : Nat)
deriving DecidableEq, Repr

def Operand.mode : Operand → AddressingMode
  | .immediate _ => .immediate
  | .direct _ => .direct
  | .matrixAccess _ _ _ => .matrixAccess
  | .registerDirect _ => .registerDirect

/-- C `value.reg_num` of an operand (only read for register operands). -/
def Operand.regNum : Operand → Nat
  | .registerDirect r => r
  | _ => 0

inductive OpCode where
  | mov | cmp | add | sub | lea | clr | not | inc
  | dec | jmp | bne | jsr | red | prn | rts | stop
deriving DecidableEq, Repr

/-- The numeric value of the `op_code_t` enum (declaration order). -/
def opcode_code : OpCode → Nat
  | .mov => 0 | .cmp => 1 | .add => 2 | .sub => 3
  | .lea => 4 | .clr => 5 | .not => 6 | .inc => 7
  | .dec => 8 | .jmp => 9 | .bne => 10 | .jsr => 11
  | .red => 12 | .prn => 13 | .rts => 14 | .stop => 15

/-- C `directive_t`. -/
inductive DirType where
  | dataD | stringD | matD | entryD | extrnD
deriving DecidableEq, Repr

/-- A directive together with its parsed operand payload. -/
inductive Directive where
  | dataD (values : List Int)
  | stringD (s : String)
  | matD (rows cols : Int) (cells : List Int)
  | entryD (name : String)
  | extrnD (name : String)
deriving DecidableEq, Repr

/-- The `operation` member of `parsed_line`.  An operand slot that the
parser did not fill keeps the `memset`-zero value (mode `IMMEDIATE`,
value 0). -/
structure Operation where
  opcode : OpCode
  nOperands : Nat
  src : Operand := .immediate 0
  dst : Operand := .immediate 0
deriving DecidableEq, Repr

/-- C `parsed_line`; an empty `label` string means no label. -/
inductive ParsedLine where
  | emptyOrComment
  | directiveLine (label : String) (d : Directive)
  | operationLine (label : String) (op : Operation)
deriving DecidableEq, Repr

/-- C `error_code_t` (the members the embedded code can return). -/
inductive Err where
  | lineTooLong
  | invalidLabel
  | illegalLabel
  | unknownCommandName
  | dataOverflow
  | invalidDirective
  | invalidOperandStx
  | invalidNumberFormat
  | invalidStringFormat
  | invalidMatrixDimensions
  | invalidMatrixInitialization
  | invalidMatrixFormat
  | invalidRegister
  | invalidAddressingMode
  | stringTooLong
  | expectedOperand
  | trailingCharacters
deriving DecidableEq, Repr

/-! ## Operand parsing (`parse_operand`) -/

/-- The matrix-access / direct-label tail of `parse_operand`: reached when
the token is neither an immediate nor a register. -/
def parse_operand_matrix_or_label (tok : List Char) : Except Err Operand :=
  if tok.contains '[' then
    let base := tok.takeWhile (fun c => c ≠ '[')
    match tok.dropWhile (fun c => c ≠ '[') with
    | [] => .error .invalidMatrixFormat
    | _ :: r1 =>
      let between1 := r1.takeWhile (fun c => c ≠ ']')
      match r1.dropWhile (fun c => c ≠ ']') with
      | [] => .error .invalidMatrixFormat
      | _ :: r2 =>
        match r2 with
        | '[' :: r3 =>
          let between2 := r3.takeWhile (fun c => c ≠ ']')
          match r3.dropWhile (fun c => c ≠ ']') with
          | [] => .error .invalidMatrixFormat
          | _ :: r4 =>
            if r4 ≠ [] then .error .invalidMatrixFormat
            else if base.length = 0 ∨ 31 ≤ base.length then .error .illegalLabel
            else if ¬ is_valid_label base then .error .illegalLabel
            else if between1.length = 0 ∨ 4 ≤ between1.length then .error .invalidRegister
            else if parse_register_token between1 < 0 then .error .invalidRegister
            else if between2.length = 0 ∨ 4 ≤ between2.length then .error .invalidRegister
            else if parse_register_token between2 < 0 then .error .invalidRegister
            else
              .ok (.matrixAccess (String.mk base)
                    (parse_register_token between1).toNat
                    (parse_register_token between2).toNat)
        | _ => .error .invalidMatrixFormat
  else if ¬ is_valid_label tok then .error .illegalLabel
  else .ok (.direct (String.mk tok))

/-- C `parse_operand`: immediate, register, matrix access, or direct label,
in that order. -/
def parse_operand (tok : List Char) : Except Err Operand :=
  match tok with
  | [] => .error .expectedOperand
  | c :: rest =>
    if c = '#' then
      match parse_integer rest with
      | none => .error .invalidNumberFormat
      | some v => .ok (.immediate v)
    else
      match tok with
      | ['r', d] =>
        if '0' ≤ d ∧ d ≤ '7' then .ok (.registerDirect (d.toNat - 48))
        else if isDigitC d then .error .invalidRegister
        else parse_operand_matrix_or_label tok
      | _ => parse_operand_matrix_or_label tok

/-! ## Opcode / directive lookup -/

/-- The `OPCODES` table with mnemonics and required operand counts. -/
def OPCODES : List (String × OpCode × Nat) :=
  [("mov", .mov, 2), ("cmp", .cmp, 2), ("add", .add, 2), ("sub", .sub, 2),
   ("lea", .lea, 2), ("clr", .clr, 1), ("not", .not, 1), ("inc", .inc, 1),
   ("dec", .dec, 1), ("jmp", .jmp, 1), ("bne", .bne, 1), ("jsr", .jsr, 1),
   ("red", .red, 1), ("prn", .prn, 1), ("rts", .rts, 0), ("stop", .stop, 0)]

def lookup_opcode_by_mnemonic (t : List Char) : Option (OpCode × Nat) :=
  (OPCODES.find? (fun e => e.1 == String.mk t)).map (·.2)

def lookup_directive_by_token (t : List Char) : Option DirType :=
  let s := String.mk t
  if s == ".data" then some .dataD
  else if s == ".string" then some .stringD
  else if s == ".mat" then some .matD
  else if s == ".entry" then some .entryD
  else if s == ".extern" then some .extrnD
  else none

/-! ## Directive payload parsers -/

/-- The `while` loop of `parse_data_directive_payload`.  The fuel strictly
exceeds the cursor length, so it never runs out (each token consumes at
least one character). -/
def parse_data_loop : Nat → List Char → List Int → Except Err (List Int)
  | 0, _, acc => .ok acc
  | fuel + 1, cursor, acc =>
    match next_token cursor [','] with
    | (none, _) => .ok acc
    | (some tok, rest) =>
      if tok = [] then .error .trailingCharacters
      else if 32 ≤ acc.length then .error .dataOverflow
      else
        match parse_integer tok with
        | none => .error .invalidNumberFormat
        | some v => parse_data_loop fuel rest (acc ++ [v])

/-- C `parse_data_directive_payload`. -/
def parse_data_directive_payload (payload : List Char) : Except Err (List Int) :=
  if payload = [] then .error .expectedOperand
  else parse_data_loop (payload.length + 1) payload []

/-- C `parse_string_directive_payload`: a leading `"` after whitespace, the
last `"` closes the literal (`strrchr`), at most 79 characters
(`len >= MAX_STRING_LEN` with `MAX_STRING_LEN = 80` is rejected), and only
whitespace may follow. -/
def parse_string_directive_payload (payload : List Char) : Except Err String :=
  match payload.dropWhile isSpaceC with
  | '"' :: rest =>
    let afterQ := rest.reverse.takeWhile (fun c => c ≠ '"')
    if afterQ.length = rest.length then .error .invalidStringFormat
    else
      let content := rest.take (rest.length - afterQ.length - 1)
      if 80 ≤ content.length then .error .stringTooLong
      else if (afterQ.reverse.dropWhile isSpaceC) ≠ [] then .error .trailingCharacters
      else .ok (String.mk content)
  | _ => .error .invalidStringFormat

/-- C `extract_bracketed_integer`: find `[`, find the following `]`, parse
the text between as an integer, return it with the cursor advanced past
the `]`. -/
def extract_bracketed_integer (s : List Char) : Except Err (Int × List Char) :=
  match s.dropWhile (fun c => c ≠ '[') with
  | [] => .error .invalidMatrixDimensions
  | _ :: r1 =>
    let content := r1.takeWhile (fun c => c ≠ ']')
    match r1.dropWhile (fun c => c ≠ ']') with
    | [] => .error .invalidMatrixDimensions
    | _ :: r2 =>
      match parse_integer content with
      | none => .error .invalidNumberFormat
      | some v => .ok (v, r2)

/-- The cell-initialiser loop of `parse_matrix_directive_payload`
(`for i < total_cells`). -/
def parse_matrix_cells : Nat → List Char → List Int → Except Err (List Int × List Char)
  | 0, cursor, acc => .ok (acc, cursor)
  | n + 1, cursor, acc =>
    match next_token cursor [','] with
    | (none, _) => .error .invalidMatrixInitialization
    | (some tok, rest) =>
      if tok = [] then .error .invalidMatrixInitialization
      else
        match parse_integer tok with
        | none => .error .invalidNumberFormat
        | some v => parse_matrix_cells n rest (acc ++ [v])

/-- C `parse_matrix_directive_payload`: `[rows][cols]`, both within
`1..15`, then either nothing (zero-filled cells) or exactly
`rows * cols` comma-separated integers. -/
def parse_matrix_directive_payload (payload : List Char) : Except Err Directive :=
  match extract_bracketed_integer payload with
  | .error e => .error e
  | .ok (rows, c1) =>
    match extract_bracketed_integer c1 with
    | .error e => .error e
    | .ok (cols, c2) =>
      if rows ≤ 0 ∨ 15 < rows ∨ cols ≤ 0 ∨ 15 < cols then
        .error .invalidMatrixDimensions
      else
        let total := (rows * cols).toNat
        let cursor := c2.dropWhile isSpaceC
        if cursor = [] then .ok (.matD rows cols (List.replicate total 0))
        else
          match parse_matrix_cells total cursor [] with
          | .error e => .error e
          | .ok (cells, endCursor) =>
            match next_token endCursor [','] with
            | (some _, _) => .error .invalidMatrixInitialization
            | (none, _) => .ok (.matD rows cols cells)

/-- C `parse_directive_operand`. -/
def parse_directive_operand (cursor : List Char) (dt : DirType) : Except Err Directive :=
  match dt with
  | .dataD => (parse_data_directive_payload cursor).map .dataD
  | .stringD => (parse_string_directive_payload cursor).map .stringD
  | .matD => parse_matrix_directive_payload cursor
  | .entryD =>
    match next_token cursor wsDelims with
    | (none, _) => .error .invalidLabel
    | (some tok, rest) =>
      if ¬ is_valid_label tok then .error .invalidLabel
      else
        match next_token rest wsDelims with
        | (some _, _) => .error .trailingCharacters
        | (none, _) => .ok (.entryD (String.mk tok))
  | .extrnD =>
    match next_token cursor wsDelims with
    | (none, _) => .error .invalidLabel
    | (some tok, rest) =>
      if ¬ is_valid_label tok then .error .invalidLabel
      else
        match next_token rest wsDelims with
        | (some _, _) => .error .trailingCharacters
        | (none, _) => .ok (.extrnD (String.mk tok))

/-! ## Instruction operands and addressing-mode validation -/

/-- C `parse_instruction_operands`: the first operand is delimited by a
comma, the second by whitespace, and nothing may follow. -/
def parse_instruction_operands (cursor : List Char) (opcode : OpCode)
    (required : Nat) : Except Err Operation :=
  if 1 ≤ required then
    match next_token cursor [','] with
    | (none, _) => .error .expectedOperand
    | (some tok1, cur1) =>
      match parse_operand tok1 with
      | .error e => .error e
      | .ok src =>
        if 2 ≤ required then
          match next_token cur1 wsDelims with
          | (none, _) => .error .expectedOperand
          | (some tok2, cur2) =>
            match parse_operand tok2 with
            | .error e => .error e
            | .ok dst =>
              match next_token cur2 wsDelims with
              | (some _, _) => .error .trailingCharacters
              | (none, _) => .ok { opcode := opcode, nOperands := required, src := src, dst := dst }
        else
          match next_token cur1 wsDelims with
          | (some _, _) => .error .trailingCharacters
          | (none, _) => .ok { opcode := opcode, nOperands := required, src := src }
  else
    match next_token cursor wsDelims with
    | (some _, _) => .error .trailingCharacters
    | (none, _) => .ok { opcode := opcode, nOperands := required }

/-- C `validate_addressing_modes`.  For single-operand instructions the
operand sits in the source slot and is validated as a destination. -/
def validate_addressing_modes (op : Operation) : Option Err :=
  match op.opcode with
  | .mov | .cmp | .add | .sub =>
    if op.dst.mode = .immediate then some .invalidAddressingMode else none
  | .lea =>
    if op.src.mode ≠ .direct ∧ op.src.mode ≠ .matrixAccess then some .invalidAddressingMode
    else if op.dst.mode = .immediate then some .invalidAddressingMode
    else none
  | .clr | .not | .inc | .dec | .jmp | .bne | .jsr | .red =>
    if op.src.mode = .immediate then some .invalidAddressingMode else none
  | .prn | .rts | .stop => none

/-! ## `parse_line` -/

/-- The body of `parse_line` once the label (if any) has been peeled off. -/
def parse_line_body (label : String) (token : List Char) (cursor : List Char) :
    Except Err ParsedLine :=
  match token with
  | '.' :: _ =>
    match lookup_directive_by_token token with
    | none => .error .invalidDirective
    | some dt => (parse_directive_operand cursor dt).map (.directiveLine label)
  | _ =>
    match lookup_opcode_by_mnemonic token with
    | none => .error .unknownCommandName
    | some (opc, required) =>
      match parse_instruction_operands cursor opc required with
      | .error e => .error e
      | .ok op =>
        match validate_addressing_modes op with
        | some e => .error e
        | none => .ok (.operationLine label op)

/-- C `parse_line` (first revision of `line_parser.c`): length check,
comment removal, trimming, optional label, then directive or
instruction dispatch.  The input line carries no trailing newline. -/
def parse_line (line : String) : Except Err ParsedLine :=
  let chars := line.toList
  if 82 ≤ chars.length then .error .lineTooLong
  else
    let wc := trim_trailing_whitespace (remove_comment_from_semicolon chars)
    match next_token wc wsDelims with
    | (none, _) => .ok .emptyOrComment
    | (some token, cur1) =>
      match token.getLast? with
      | some ':' =>
        let lbl := token.dropLast
        if ¬ is_valid_label lbl then .error .illegalLabel
        else
          match next_token cur1 wsDelims with
          | (none, _) =>
            -- a line holding only a label: `out->label[0]` is set, so this
            -- is `ERROR_INVALID_OPERAND_SYNTAX`
            .error .invalidOperandStx
          | (some tok2, cur2) => parse_line_body (String.mk lbl) tok2 cur2
      | _ => parse_line_body "" token cur1

/-! ## Symbol table (`symbol_table.c`)

The hash table keyed by the symbol name is modelled as an association
list; the spec declares iteration order unobservable. -/

def SYM_CODE : Nat := 1
def SYM_DATA : Nat := 2
def SYM_ENTRY : Nat := 4
/-- C `SYM_EXTERN` in the C sources. -/
def SYM_EXT : Nat := 8

def ADDRESS_BASE : Int := 100

structure Symbol where
  name : String
  address : Int
  flags : Nat
deriving DecidableEq, Repr

/-- C `check_symbol_conflicts`: 1 (true) when the merge must be refused. -/
def check_symbol_conflicts (existing_flags new_flags : Nat) : Bool :=
  ((new_flags &&& (SYM_CODE ||| SYM_DATA) != 0) && (existing_flags &&& (SYM_CODE ||| SYM_DATA) != 0)) ||
  ((new_flags &&& (SYM_CODE ||| SYM_DATA) != 0) && (existing_flags &&& SYM_EXT != 0)) ||
  ((new_flags &&& SYM_EXT != 0) && (existing_flags &&& (SYM_CODE ||| SYM_DATA) != 0)) ||
  ((new_flags &&& SYM_ENTRY != 0) && (existing_flags &&& SYM_ENTRY != 0)) ||
  ((new_flags &&& SYM_ENTRY != 0) && (existing_flags &&& SYM_EXT != 0)) ||
  ((new_flags &&& SYM_EXT != 0) && (existing_flags &&& SYM_ENTRY != 0))

/-- C `symtab_insert`: merge into an existing symbol of the same name
(refusing on a flag conflict; the address is overwritten exactly when the
added flags contain `Code` or `Data`, and the flag bits are unioned), or
append a new symbol (`strncpy` keeps at most 30 name characters).
`none` models the C return value 0. -/
def symtab_insert : List Symbol → String → Int → Nat → Option (List Symbol)
  | [], name, address, add_flags => some [⟨name.take 30, address, add_flags⟩]
  | s :: rest, name, address, add_flags =>
    if s.name == name then
      if check_symbol_conflicts s.flags add_flags then none
      else
        some ({ name := s.name,
                address := if add_flags &&& (SYM_CODE ||| SYM_DATA) != 0 then address else s.address,
                flags := s.flags ||| add_flags } :: rest)
    else
      (symtab_insert rest name address add_flags).map (s :: ·)

/-- C `symtab_lookup` (`hash_get`). -/
def symtab_lookup (st : List Symbol) (name : String) : Option Symbol :=
  st.find? (fun s => s.name == name)

/-- C `symtab_bump_data_addresses`: add `ic_final` to the address of every
symbol carrying the `Data` flag. -/
def symtab_bump_data_addresses : List Symbol → Int → List Symbol
  | [], _ => []
  | s :: rest, ic_final =>
    (if s.flags &&& SYM_DATA != 0 then { s with address := s.address + ic_final } else s)
      :: symtab_bump_data_addresses rest ic_final

/-! ## First pass (`first_pass.c`) -/

/-- C `get_extra_words_for_operand`. -/
def get_extra_words_for_operand (op : Operand) : Nat :=
  match op.mode with
  | .immediate => 1
  | .direct => 1
  | .matrixAccess => 2
  | .registerDirect => 1

/-- C `calc_instruction_words`: one opcode word plus the operand extras,
minus one shared word when both operands are registers. -/
def calc_instruction_words (op : Operation) : Nat :=
  let extra :=
    (if 1 ≤ op.nOperands then get_extra_words_for_operand op.src else 0) +
    (if 2 ≤ op.nOperands then get_extra_words_for_operand op.dst else 0)
  let extra :=
    if op.nOperands = 2 ∧ op.src.mode = .registerDirect ∧ op.dst.mode = .registerDirect
    then extra - 1 else extra
  1 + extra

/-- C `calc_directive_words`. -/
def calc_directive_words (d : Directive) : Int :=
  match d with
  | .dataD values => values.length
  | .stringD s => s.length + 1
  | .matD rows cols _ => rows * cols
  | .entryD _ => 0
  | .extrnD _ => 0

structure FirstPassResult where
  symtab : List Symbol
  ic : Int
  dc : Int
  errors : Nat
deriving DecidableEq, Repr

/-- One iteration of the `first_pass` read loop. -/
def first_pass_line (acc : FirstPassResult) (line : String) : FirstPassResult :=
  match parse_line line with
  | .error _ => { acc with errors := acc.errors + 1 }
  | .ok .emptyOrComment => acc
  | .ok (.operationLine label op) =>
    let acc1 :=
      if label ≠ "" then
        match symtab_insert acc.symtab label (ADDRESS_BASE + acc.ic) SYM_CODE with
        | none => { acc with errors := acc.errors + 1 }
        | some st => { acc with symtab := st }
      else acc
    { acc1 with ic := acc1.ic + (calc_instruction_words op : Int) }
  | .ok (.directiveLine label d) =>
    let acc1 :=
      if label ≠ "" then
        match d with
        | .dataD _ | .stringD _ | .matD _ _ _ =>
          match symtab_insert acc.symtab label (ADDRESS_BASE + acc.dc) SYM_DATA with
          | none => { acc with errors := acc.errors + 1 }
          | some st => { acc with symtab := st }
        | .entryD _ | .extrnD _ => acc
      else acc
    match d with
    | .dataD _ | .stringD _ | .matD _ _ _ =>
      { acc1 with dc := acc1.dc + calc_directive_words d }
    | .extrnD name =>
      match symtab_insert acc1.symtab name 0 SYM_EXT with
      | none => { acc1 with errors := acc1.errors + 1 }
      | some st => { acc1 with symtab := st }
    | .entryD name =>
      match symtab_insert acc1.symtab name 0 SYM_ENTRY with
      | none => { acc1 with errors := acc1.errors + 1 }
      | some st => { acc1 with symtab := st }

/-- C `first_pass` over the lines of the preprocessed file: the read loop,
then `rebase_data_symbols` with `IC_final`, then the final validation
walk (`Entry` must coexist with `Code` or `Data` and must not coexist
with `Extern`). -/
def first_pass (lines : List String) : FirstPassResult :=
  let a := lines.foldl first_pass_line ⟨[], 0, 0, 0⟩
  let st := symtab_bump_data_addresses a.symtab a.ic
  let finalErrors := st.foldl
    (fun e s =>
      let e1 := if s.flags &&& SYM_ENTRY != 0 && !(s.flags &&& (SYM_CODE ||| SYM_DATA) != 0)
                then e + 1 else e
      if s.flags &&& SYM_ENTRY != 0 && s.flags &&& SYM_EXT != 0 then e1 + 1 else e1)
    a.errors
  { symtab := st, ic := a.ic, dc := a.dc, errors := finalErrors }

/-! ## Macro preprocessor (`preprocessor.c`, `strtok`-based revision) -/

/-- C `strtok(line, " \t\n\r")`-style tokenisation: maximal runs of
non-whitespace characters.  The fuel strictly exceeds the scanned length
and never runs out. -/
def splitToks : Nat → List Char → List (List Char)
  | 0, _ => []
  | fuel + 1, s =>
    match s.dropWhile isSpaceC with
    | [] => []
    | c :: cs =>
      (c :: cs.takeWhile (fun x => !isSpaceC x)) :: splitToks fuel (cs.dropWhile (fun x => !isSpaceC x))

/-- All whitespace-delimited tokens of a line. -/
def tokensOf (line : String) : List String :=
  (splitToks (line.length + 1) line.toList).map String.mk

/-- The preprocessor state: the `in_macro_definition` flag, the name held
by `current_macro` (the C pointer aliases the table entry, so the tracked
name suffices), the name-keyed table of recorded bodies, the lines written
so far to the `.am` stream, and the aggregate `success` flag. -/
structure PPState where
  inDef : Bool
  cur : Option String
  tbl : List (String × List String)
  out : List String
  success : Bool
deriving DecidableEq, Repr

/-- C `hash_get` on the table of bodies. -/
def tbl_get (t : List (String × List String)) (k : String) : Option (List String) :=
  (t.find? (fun e => e.1 == k)).map (·.2)

/-- C `hash_put`: replace the value of an existing key, else append. -/
def tbl_put (t : List (String × List String)) (k : String) (v : List String) :
    List (String × List String) :=
  match t with
  | [] => [(k, v)]
  | (k', v') :: rest => if k' == k then (k, v) :: rest else (k', v') :: tbl_put rest k v

/-- C `add_line_to_macro` through the aliased table entry. -/
def tbl_append_line (t : List (String × List String)) (k : String) (line : String) :
    List (String × List String) :=
  t.map (fun e => if e.1 == k then (e.1, e.2 ++ [line]) else e)

/-- One iteration of the `preprocess_file` read loop. -/
def pp_line (st : PPState) (line : String) : PPState :=
  match tokensOf line with
  | [] =>
    -- empty or whitespace-only line
    if st.inDef then st else { st with out := st.out ++ [line] }
  | t0 :: rest =>
    if t0 = "mcro" then
      let st1 := { st with inDef := true }
      match rest with
      | [] => { st1 with success := false }            -- missing name
      | name :: rest2 =>
        if pp_is_reserved_keyword name then { st1 with success := false }
        else if rest2 ≠ [] then { st1 with success := false }   -- token after definition
        else { st1 with cur := some name, tbl := tbl_put st1.tbl name [] }
    else if t0 = "mcrend" then
      let st1 := if rest ≠ [] then { st with success := false } else st
      { st1 with inDef := false, cur := none }
    else if st.inDef then
      match st.cur with
      | none => st                                     -- add_line_to_macro(NULL, ..) is a no-op
      | some name => { st with tbl := tbl_append_line st.tbl name line }
    else
      match tbl_get st.tbl t0 with
      | some body => { st with out := st.out ++ body }
      | none => { st with out := st.out ++ [line] }

/-- The state after the whole read loop of `preprocess_file`. -/
def pp_run (lines : List String) : PPState :=
  lines.foldl pp_line ⟨false, none, [], [], true⟩

/-- The observable outcome of `preprocess_file`: the C return value and
the `.am` file (`none` models `remove(output_path)` on failure). -/
structure PPResult where
  ret : Int
  amFile : Option (List String)
deriving DecidableEq, Repr

/-- C `preprocess_file` on a list of source lines. -/
def preprocess_file (lines : List String) : PPResult :=
  let st := pp_run lines
  if st.success then ⟨0, some st.out⟩ else ⟨-1, none⟩

/-! ## Second pass (`second_pass.c`) -/

def ARE_A : Nat := 0
def ARE_E : Nat := 1
def ARE_R : Nat := 2

/-- A C `int` stored into the 16-bit `WORD` container. -/
def wordOfInt (v : Int) : Nat := (v % 65536).toNat

/-- C `WORD_SET_ARE`. -/
def word_set_are (w are : Nat) : Nat := (w &&& 0xFFFC) ||| (are &&& 3)

/-- The `FIRST_WORD` macro assigned into a `WORD`. -/
def first_word_enc (opc : OpCode) (srcMode dstMode are : Nat) : Nat :=
  ((opcode_code opc) <<< 6 ||| srcMode <<< 4 ||| dstMode <<< 2 ||| are) % 65536

/-- C `second_pass_ctx_t`: image positions are the list lengths. -/
structure SPCtx where
  code : List Nat
  data : List Nat
  ext : List (String × Int)
deriving DecidableEq, Repr

/-- C `encode_operand`: appends the extra words of one operand to the code
image; `none` models the C return value -1 (unresolved symbol). -/
def encode_operand (ctx : SPCtx) (op : Operand) (st : List Symbol)
    (addr_of_next_word : Int) (is_source : Bool) : Option SPCtx :=
  match op with
  | .immediate v =>
    some { ctx with code := ctx.code ++ [word_set_are (wordOfInt (v * 4)) ARE_A] }
  | .direct label =>
    match symtab_lookup st label with
    | none => none
    | some sym =>
      if sym.flags &&& SYM_EXT != 0 then
        some { ctx with
                ext := ctx.ext ++ [(label, addr_of_next_word)],
                code := ctx.code ++ [word_set_are 0 ARE_E] }
      else
        some { ctx with code := ctx.code ++ [word_set_are (wordOfInt (sym.address * 4)) ARE_R] }
  | .matrixAccess label row col =>
    match symtab_lookup st label with
    | none => none
    | some sym =>
      let ctx1 :=
        if sym.flags &&& SYM_EXT != 0 then
          { ctx with
              ext := ctx.ext ++ [(label, addr_of_next_word)],
              code := ctx.code ++ [word_set_are 0 ARE_E] }
        else
          { ctx with code := ctx.code ++ [word_set_are (wordOfInt (sym.address * 4)) ARE_R] }
      some { ctx1 with
              code := ctx1.code ++ [word_set_are ((row <<< 6 ||| col <<< 2) % 65536) ARE_A] }
  | .registerDirect r =>
    some { ctx with
            code := ctx.code ++
              [if is_source then (r <<< 6 ||| ARE_A) % 65536 else (r <<< 2 ||| ARE_A) % 65536] }

/-- C `encode_instruction`: the first word, then either the shared register
word or the source and destination extras. -/
def encode_instruction (ctx : SPCtx) (op : Operation) (st : List Symbol) : Option SPCtx :=
  if op.nOperands = 0 then
    some { ctx with code := ctx.code ++ [first_word_enc op.opcode 0 0 ARE_A] }
  else
    let fw := first_word_enc op.opcode
      (if op.nOperands = 2 then op.src.mode.code else 0)
      (if 1 < op.nOperands then op.dst.mode.code else op.src.mode.code) ARE_A
    let ctx1 := { ctx with code := ctx.code ++ [fw] }
    if op.nOperands = 2 ∧ op.src.mode = .registerDirect ∧ op.dst.mode = .registerDirect then
      some { ctx1 with
              code := ctx1.code ++
                [(op.src.regNum <<< 6 ||| op.dst.regNum <<< 2 ||| ARE_A) % 65536] }
    else
      match (if 1 ≤ op.nOperands
             then encode_operand ctx1 op.src st ((ctx1.code.length : Int) + ADDRESS_BASE) true
             else some ctx1) with
      | none => none
      | some ctx2 =>
        if 2 ≤ op.nOperands then
          encode_operand ctx2 op.dst st ((ctx2.code.length : Int) + ADDRESS_BASE) false
        else some ctx2

/-- C `encode_data`: words appended to the data image by a directive. -/
def encode_data (ctx : SPCtx) (d : Directive) : SPCtx :=
  match d with
  | .dataD values => { ctx with data := ctx.data ++ values.map wordOfInt }
  | .stringD s =>
    { ctx with data := ctx.data ++ s.toList.map (fun c => c.toNat % 65536) ++ [0] }
  | .matD _ _ cells => { ctx with data := ctx.data ++ cells.map wordOfInt }
  | .entryD _ => ctx
  | .extrnD _ => ctx

/-- One iteration of the `second_pass` read loop: lines that fail to parse
are skipped, operations are encoded (`none` aborts the file on an
unresolved symbol), and `.data`/`.string`/`.mat` directives are encoded
into the data image. -/
def second_pass_line (ctx : SPCtx) (line : String) (st : List Symbol) : Option SPCtx :=
  match parse_line line with
  | .error _ => some ctx
  | .ok .emptyOrComment => some ctx
  | .ok (.operationLine _ op) => encode_instruction ctx op st
  | .ok (.directiveLine _ d) =>
    match d with
    | .dataD _ | .stringD _ | .matD _ _ _ => some (encode_data ctx d)
    | .entryD _ | .extrnD _ => some ctx

/-- The read loop of `second_pass` (before the output files are written). -/
def second_pass_scan : List String → List Symbol → SPCtx → Option SPCtx
  | [], _, ctx => some ctx
  | line :: rest, st, ctx =>
    match second_pass_line ctx line st with
    | none => none
    | some ctx1 => second_pass_scan rest st ctx1

/-- C `word_to_base4`: the C routine writes `length - 1` characters, least
significant 2-bit group into the last position, digits `a`..`d`. -/
def word_to_base4_digits : Nat → Nat → List Char
  | _, 0 => []
  | w, n + 1 => word_to_base4_digits (w >>> 2) n ++ [Char.ofNat (97 + (w &&& 3))]

/-- C `word_to_base4 w length` as the written character content (the C
buffer holds `length - 1` digits plus the terminator). -/
def word_to_base4 (w : Nat) (length : Nat) : List Char :=
  word_to_base4_digits w (length - 1)

/-! # Claims

The remainder of the file settles the claims C1..C10 against the
embedding above. -/

set_option maxRecDepth 20000

/-! ## C1: the end-to-end first-pass scenario -/

/-- The four-line program of the claim (scenario 6 of the spec). -/
def demo_program : List String :=
  ["MAIN: mov r1, r2", "      stop", "VAL:  .data 5", "      .entry MAIN"]

/-- Claim C1, counterexample: as stated the claim is false on the code.
`mov r1, r2` occupies 2 words and `stop` 1 word, so `IC_final` is 3 (not
2) and `VAL` is rebased to 103 (not 102). -/
theorem claim_C1_counterexample :
    ¬ (symtab_lookup (first_pass demo_program).symtab "MAIN" =
          some ⟨"MAIN", 100, SYM_CODE ||| SYM_ENTRY⟩ ∧
        (symtab_lookup (first_pass demo_program).symtab "VAL").map Symbol.address =
          some 102 ∧
        (symtab_lookup (first_pass demo_program).symtab "VAL").map Symbol.flags =
          some SYM_DATA ∧
        (first_pass demo_program).ic = 2 ∧
        (first_pass demo_program).dc = 1) := by
  decide

/-- Claim C1 (amended): the first pass of the four-line program produces
`MAIN` at address 100 with `Code|Entry`, `VAL` with `Data` rebased to
address 103 = 100 + IC_final, and the final counters are `IC_final = 3`
(two words for `mov r1, r2`, one for `stop`) and `DC_final = 1`, with no
errors. -/
theorem claim_C1 :
    symtab_lookup (first_pass demo_program).symtab "MAIN" =
      some ⟨"MAIN", 100, SYM_CODE ||| SYM_ENTRY⟩ ∧
    symtab_lookup (first_pass demo_program).symtab "VAL" =
      some ⟨"VAL", 103, SYM_DATA⟩ ∧
    (first_pass demo_program).ic = 3 ∧
    (first_pass demo_program).dc = 1 ∧
    (first_pass demo_program).errors = 0 := by
  decide

/-! ## C2: `cmp` and immediate destinations -/

/-- Claim C2, counterexample: `parse_line` on `cmp r1, #5` does not
succeed; `validate_addressing_modes` treats `cmp` exactly like `mov`,
`add` and `sub` and rejects the immediate destination. -/
theorem claim_C2_counterexample :
    parse_line "cmp r1, #5" = Except.error Err.invalidAddressingMode ∧
    ∀ pl : ParsedLine, parse_line "cmp r1, #5" ≠ Except.ok pl := by
  refine ⟨rfl, ?_⟩
  intro pl h
  rw [show parse_line "cmp r1, #5" = Except.error Err.invalidAddressingMode from rfl] at h
  exact Except.noConfusion h

/-- Claim C2 (amended): for `mov`, `cmp`, `add` and `sub` alike, an
Immediate destination operand is rejected with `InvalidAddressingMode`. -/
theorem claim_C2 (op : Operation)
    (hop : op.opcode = .mov ∨ op.opcode = .cmp ∨ op.opcode = .add ∨ op.opcode = .sub)
    (hdst : op.dst.mode = .immediate) :
    validate_addressing_modes op = some .invalidAddressingMode := by
  obtain ⟨opc, n, src, dst⟩ := op
  rcases hop with h | h | h | h <;> cases h <;>
    simp_all [validate_addressing_modes]

/-- Witness for C2: the parsed form of `cmp r1, #5`. -/
theorem claim_C2_witness :
    validate_addressing_modes ⟨.cmp, 2, .registerDirect 1, .immediate 5⟩ =
      some .invalidAddressingMode :=
  claim_C2 ⟨.cmp, 2, .registerDirect 1, .immediate 5⟩ (Or.inr (Or.inl rfl)) rfl

/-! ## C4: the macro-expansion scenario -/

/-- Claim C4, counterexample: the preprocessor's terminator constant
`mcrend` is the string `"mcrend"`, so in the claimed input the line
`endmcro` never ends the definition: it and the call line are swallowed
into the macro body, preprocessing succeeds, and the output is empty
rather than `inc r1`. -/
theorem claim_C4_counterexample :
    preprocess_file ["mcro my_inc", "inc r1", "endmcro", "my_inc"] = ⟨0, some []⟩ ∧
    (some ([] : List String) ≠ some ["inc r1"]) := by
  refine ⟨by decide, ?_⟩
  simp

/-- Claim C4 (amended): with the terminator actually recognised by the
code (`mcrend`), preprocessing succeeds and produces exactly the expanded
output `inc r1`: the definition is removed and the body is emitted once at
the call site. -/
theorem claim_C4 :
    preprocess_file ["mcro my_inc", "inc r1", "mcrend", "my_inc"] =
      ⟨0, some ["inc r1"]⟩ := by
  decide

/-! ## C5: `symtab_insert` failure and merge semantics -/

/-- Modelled from the spec's words, for comparison with the code: the four
conflict rules exactly as claim C5 lists them, read over the merged flag
set (`Code` and `Data` are mutually exclusive; `Extern` is mutually
exclusive with `Code` and `Data`; `Entry` and `Extern` are mutually
exclusive) plus `Entry` not being asserted twice. -/
def spec_rule_conflict (existing add : Nat) : Prop :=
  ((existing ||| add) &&& SYM_CODE ≠ 0 ∧ (existing ||| add) &&& SYM_DATA ≠ 0) ∨
  ((existing ||| add) &&& SYM_EXT ≠ 0 ∧
    ((existing ||| add) &&& SYM_CODE ≠ 0 ∨ (existing ||| add) &&& SYM_DATA ≠ 0)) ∨
  ((existing ||| add) &&& SYM_ENTRY ≠ 0 ∧ (existing ||| add) &&& SYM_EXT ≠ 0) ∨
  (existing &&& SYM_ENTRY ≠ 0 ∧ add &&& SYM_ENTRY ≠ 0)

/-- The conflict rule the code actually implements, stated logically:
besides the spec's four rules, an `add_flags` containing `Code` or `Data`
also conflicts with an existing `Code` or `Data` (this is how duplicate
label definitions are refused). -/
def merge_conflict (existing add : Nat) : Prop :=
  ((add &&& SYM_CODE ≠ 0 ∨ add &&& SYM_DATA ≠ 0) ∧
     (existing &&& SYM_CODE ≠ 0 ∨ existing &&& SYM_DATA ≠ 0)) ∨
  ((add &&& SYM_CODE ≠ 0 ∨ add &&& SYM_DATA ≠ 0) ∧ existing &&& SYM_EXT ≠ 0) ∨
  (add &&& SYM_EXT ≠ 0 ∧ (existing &&& SYM_CODE ≠ 0 ∨ existing &&& SYM_DATA ≠ 0)) ∨
  (add &&& SYM_ENTRY ≠ 0 ∧ existing &&& SYM_ENTRY ≠ 0) ∨
  (add &&& SYM_ENTRY ≠ 0 ∧ existing &&& SYM_EXT ≠ 0) ∨
  (add &&& SYM_EXT ≠ 0 ∧ existing &&& SYM_ENTRY ≠ 0)

instance (existing add : Nat) : Decidable (spec_rule_conflict existing add) := by
  unfold spec_rule_conflict; infer_instance

instance (existing add : Nat) : Decidable (merge_conflict existing add) := by
  unfold merge_conflict; infer_instance

/-- On 4-bit flag sets (the only ones the assembler builds) the code's
`check_symbol_conflicts` decides exactly `merge_conflict`. -/
theorem check_symbol_conflicts_iff :
    ∀ existing < 16, ∀ add < 16,
      (check_symbol_conflicts existing add = true ↔ merge_conflict existing add) := by
  decide

/-- Claim C5, counterexample: re-asserting `Code` on a symbol that already
carries `Code` (a duplicate label definition) makes `symtab_insert` fail,
although it violates none of the conflict rules the claim lists (the
merged flag set is still just `Code`). -/
theorem claim_C5_counterexample :
    symtab_insert [⟨"X", 100, SYM_CODE⟩] "X" 105 SYM_CODE = none ∧
    ¬ spec_rule_conflict SYM_CODE SYM_CODE := by
  exact ⟨rfl, by decide⟩

/-- Claim C5 (amended): `symtab_insert` fails if and only if the name
already exists and the merge violates a conflict rule, where the rules are
the claim's four plus the duplicate-definition rule: flags from
`[Code, Data]` may not be added to a symbol already carrying `Code` or
`Data`.  On a successful merge the address is overwritten exactly when
`add_flags` contains `Code` or `Data`, and the flag bits are unioned.
(Flag sets are bounded by 16, i.e. unions of the four `SYM_*` bits.) -/
theorem claim_C5 (st : List Symbol) (name : String) (addr : Int) (add : Nat)
    (hst : ∀ s ∈ st, s.flags < 16) (hadd : add < 16) :
    (symtab_insert st name addr add = none ↔
      ∃ s, symtab_lookup st name = some s ∧ merge_conflict s.flags add) ∧
    (∀ s, symtab_lookup st name = some s → ¬ merge_conflict s.flags add →
      ∃ st', symtab_insert st name addr add = some st' ∧
        symtab_lookup st' name =
          some ⟨s.name,
                if add &&& (SYM_CODE ||| SYM_DATA) != 0 then addr else s.address,
                s.flags ||| add⟩) := by
  induction st with
  | nil =>
    constructor
    · simp [symtab_insert, symtab_lookup]
    · intro s hs
      simp [symtab_lookup] at hs
  | cons s0 rest ih =>
    have hs0 : s0.flags < 16 := hst s0 (by simp)
    have hrest : ∀ s ∈ rest, s.flags < 16 := fun s hs => hst s (by simp [hs])
    obtain ⟨ih1, ih2⟩ := ih hrest
    by_cases hn : (s0.name == name) = true
    · have hiff := check_symbol_conflicts_iff s0.flags hs0 add hadd
      have hlook : symtab_lookup (s0 :: rest) name = some s0 :=
        List.find?_cons_of_pos rest hn
      constructor
      · rw [hlook]
        unfold symtab_insert
        rw [if_pos hn]
        cases hcc : check_symbol_conflicts s0.flags add
        · rw [if_neg (by simp [hcc])]
          constructor
          · intro h; exact Option.noConfusion h
          · rintro ⟨s, hs, hconf⟩
            injection hs with hs
            subst hs
            exact absurd (hiff.mpr hconf) (by simp [hcc])
        · rw [if_pos rfl]
          exact ⟨fun _ => ⟨s0, rfl, hiff.mp hcc⟩, fun _ => rfl⟩
      · intro s hs hconf
        rw [hlook] at hs
        injection hs with hs
        subst hs
        have hcc : check_symbol_conflicts s0.flags add = false := by
          cases hcc : check_symbol_conflicts s0.flags add
          · rfl
          · exact absurd (hiff.mp hcc) hconf
        refine ⟨{ name := s0.name,
                  address := if add &&& (SYM_CODE ||| SYM_DATA) != 0 then addr else s0.address,
                  flags := s0.flags ||| add } :: rest, ?_, ?_⟩
        · unfold symtab_insert
          rw [if_pos hn, if_neg (by simp [hcc])]
        · exact List.find?_cons_of_pos rest hn
    · have hlook : symtab_lookup (s0 :: rest) name = symtab_lookup rest name :=
        List.find?_cons_of_neg rest (by simpa using hn)
      have hins : symtab_insert (s0 :: rest) name addr add =
          (symtab_insert rest name addr add).map (s0 :: ·) := by
        simp only [symtab_insert]
        rw [if_neg hn]
      constructor
      · rw [hlook, hins]
        rw [Option.map_eq_none']
        exact ih1
      · intro s hs hconf
        rw [hlook] at hs
        obtain ⟨st'', hins'', hlook''⟩ := ih2 s hs hconf
        refine ⟨s0 :: st'', ?_, ?_⟩
        · rw [hins, hins'']
          rfl
        · show List.find? (fun s => s.name == name) (s0 :: st'') = _
          rw [List.find?_cons_of_neg st'' (by simpa using hn)]
          exact hlook''

/-- Witness for C5: merging `.entry` into an existing code symbol keeps
its address (the added flags carry neither `Code` nor `Data`) and unions
the `Entry` bit. -/
theorem claim_C5_witness :
    ∃ st', symtab_insert [⟨"Y", 100, SYM_CODE⟩] "Y" 0 SYM_ENTRY = some st' ∧
      symtab_lookup st' "Y" =
        some ⟨"Y",
              if SYM_ENTRY &&& (SYM_CODE ||| SYM_DATA) != 0 then 0 else 100,
              SYM_CODE ||| SYM_ENTRY⟩ :=
  (claim_C5 [⟨"Y", 100, SYM_CODE⟩] "Y" 0 SYM_ENTRY (by decide) (by decide)).2
    ⟨"Y", 100, SYM_CODE⟩ rfl (by decide)

/-! ## C6: the data rebase -/

/-- Claim C6: `symtab_bump_data_addresses st ic_final` maps the table
pointwise: every symbol keeps its name and flags, a symbol carrying `Data`
has its address increased by `ic_final` exactly once, and a symbol without
`Data` keeps its address. -/
theorem claim_C6 (st : List Symbol) (ic_final : Int) :
    List.Forall₂
      (fun s s' : Symbol =>
        s'.name = s.name ∧ s'.flags = s.flags ∧
        s'.address = s.address + (if s.flags &&& SYM_DATA != 0 then ic_final else 0))
      st (symtab_bump_data_addresses st ic_final) := by
  induction st with
  | nil => exact List.Forall₂.nil
  | cons s rest ih =>
    unfold symtab_bump_data_addresses
    refine List.Forall₂.cons ?_ ih
    cases hb : (s.flags &&& SYM_DATA != 0) <;> simp [hb]

/-! ## C7: duplicate macro definitions -/

/-- Claim C7, counterexample: an input defining `m` twice is not reported;
preprocessing succeeds and the output file exists, so it is false that
every duplicated macro name makes the run fail. -/
theorem claim_C7_counterexample :
    (preprocess_file
        ["mcro m", "inc r1", "mcrend", "mcro m", "dec r2", "mcrend", "m"]).ret = 0 ∧
    (preprocess_file
        ["mcro m", "inc r1", "mcrend", "mcro m", "dec r2", "mcrend", "m"]).amFile ≠ none := by
  refine ⟨by decide, ?_⟩
  rw [show preprocess_file
        ["mcro m", "inc r1", "mcrend", "mcro m", "dec r2", "mcrend", "m"] =
      ⟨0, some ["dec r2"]⟩ from by decide]
  simp

/-- Claim C7 (amended): a `mcro` line whose name duplicates an existing
macro is not detected: `hash_put` silently replaces the stored body, the
run succeeds, and later calls expand the most recent definition. -/
theorem claim_C7 :
    preprocess_file ["mcro m", "inc r1", "mcrend", "mcro m", "dec r2", "mcrend", "m"] =
      ⟨0, some ["dec r2"]⟩ := by
  decide

/-! ## C8: macro calls with trailing tokens -/

/-- Claim C8, counterexample: the Idle-state line `m extra` carries a
token after the macro name, yet it is replaced by the body `inc r1`
instead of being emitted verbatim. -/
theorem claim_C8_counterexample :
    (preprocess_file ["mcro m", "inc r1", "mcrend", "m extra"]).amFile =
      some ["inc r1"] ∧
    (["inc r1"] ≠ ["m extra"]) := by
  refine ⟨by decide, ?_⟩
  simp

/-- Claim C8 (amended): in the Idle state a line is replaced by the macro
body whenever its FIRST whitespace-delimited token names a known macro
(and is not `mcro`/`mcrend`); any further tokens on the line are ignored,
not emitted. -/
theorem claim_C8 (st : PPState) (line : String) (t0 : String) (rest : List String)
    (body : List String)
    (hidle : st.inDef = false)
    (htok : tokensOf line = t0 :: rest)
    (h0 : t0 ≠ "mcro") (h1 : t0 ≠ "mcrend")
    (hmac : tbl_get st.tbl t0 = some body) :
    pp_line st line = { st with out := st.out ++ body } := by
  unfold pp_line
  rw [htok]
  simp [h0, h1, hidle, hmac]

/-- Witness for C8: the concrete line `m extra` against a table holding
macro `m`. -/
theorem claim_C8_witness :
    pp_line ⟨false, none, [("m", ["inc r1"])], [], true⟩ "m extra" =
      ⟨false, none, [("m", ["inc r1"])], ["inc r1"], true⟩ :=
  claim_C8 ⟨false, none, [("m", ["inc r1"])], [], true⟩ "m extra" "m" ["extra"]
    ["inc r1"] rfl (by decide) (by decide) (by decide) (by decide)

/-! ## C9: failure semantics of the preprocessor -/

/-- Claim C9: whenever `preprocess_file` returns failure the `.am` file
does not exist (it is removed even though lines may have been written
during the scan), and on success the file holds exactly the lines written
by the expansion run. -/
theorem claim_C9 (lines : List String) :
    ((preprocess_file lines).ret ≠ 0 → (preprocess_file lines).amFile = none) ∧
    ((preprocess_file lines).ret = 0 →
      (preprocess_file lines).amFile = some (pp_run lines).out) := by
  unfold preprocess_file
  cases h : (pp_run lines).success <;> simp [h]

/-- Witness for C9: a run with no errors. -/
theorem claim_C9_witness :
    (preprocess_file ["inc r1"]).amFile = some (pp_run ["inc r1"]).out :=
  (claim_C9 ["inc r1"]).2 (by decide)

/-! ## C3: the size of stored words -/

/-- The 16-bit cast bounds every stored value. -/
theorem wordOfInt_lt (v : Int) : wordOfInt v < 65536 := by
  unfold wordOfInt
  have h1 : 0 ≤ v % 65536 := Int.emod_nonneg v (by norm_num)
  have h2 : v % 65536 < 65536 := Int.emod_lt_of_pos v (by norm_num)
  omega

theorem word_set_are_lt {w : Nat} (hw : w < 65536) (are : Nat) :
    word_set_are w are < 65536 := by
  unfold word_set_are
  have h1 : w &&& 0xFFFC ≤ w := Nat.and_le_left
  have h2 : are &&& 3 ≤ 3 := Nat.and_le_right
  have h5 : w &&& 0xFFFC ||| are &&& 3 < 2 ^ 16 :=
    Nat.or_lt_two_pow (by omega) (by omega)
  norm_num at h5
  exact h5

/-- Every word held in either image fits the 16-bit container. -/
def ctx_bounded (ctx : SPCtx) : Prop :=
  (∀ w ∈ ctx.code, w < 65536) ∧ ∀ w ∈ ctx.data, w < 65536

theorem bounded_append_one {l : List Nat} {x : Nat}
    (hl : ∀ w ∈ l, w < 65536) (hx : x < 65536) : ∀ w ∈ l ++ [x], w < 65536 := by
  intro w hw
  rcases List.mem_append.mp hw with h | h
  · exact hl w h
  · rw [List.mem_singleton] at h; subst h; exact hx

theorem encode_operand_bounded {ctx : SPCtx} {op : Operand} {st : List Symbol}
    {a : Int} {b : Bool} {ctx' : SPCtx}
    (h : encode_operand ctx op st a b = some ctx')
    (hb : ctx_bounded ctx) : ctx_bounded ctx' := by
  obtain ⟨hc, hd⟩ := hb
  cases op with
  | immediate v =>
    simp only [encode_operand, Option.some.injEq] at h
    subst h
    exact ⟨bounded_append_one hc (word_set_are_lt (wordOfInt_lt _) _), hd⟩
  | direct label =>
    simp only [encode_operand] at h
    cases hs : symtab_lookup st label with
    | none => rw [hs] at h; exact Option.noConfusion h
    | some sym =>
      rw [hs] at h
      dsimp only at h
      split_ifs at h <;> (simp only [Option.some.injEq] at h; subst h)
      · exact ⟨bounded_append_one hc (word_set_are_lt (by norm_num) _), hd⟩
      · exact ⟨bounded_append_one hc (word_set_are_lt (wordOfInt_lt _) _), hd⟩
  | matrixAccess label row col =>
    simp only [encode_operand] at h
    cases hs : symtab_lookup st label with
    | none => rw [hs] at h; exact Option.noConfusion h
    | some sym =>
      rw [hs] at h
      simp only [Option.some.injEq] at h
      split_ifs at h <;> subst h
      · exact ⟨bounded_append_one
          (bounded_append_one hc (word_set_are_lt (by norm_num) _))
          (word_set_are_lt (Nat.mod_lt _ (by norm_num)) _), hd⟩
      · exact ⟨bounded_append_one
          (bounded_append_one hc (word_set_are_lt (wordOfInt_lt _) _))
          (word_set_are_lt (Nat.mod_lt _ (by norm_num)) _), hd⟩
  | registerDirect r =>
    simp only [encode_operand, Option.some.injEq] at h
    subst h
    refine ⟨bounded_append_one hc ?_, hd⟩
    cases b <;> simp <;> exact Nat.mod_lt _ (by norm_num)

theorem encode_instruction_bounded {ctx : SPCtx} {op : Operation} {st : List Symbol}
    {ctx' : SPCtx}
    (h : encode_instruction ctx op st = some ctx') (hb : ctx_bounded ctx) :
    ctx_bounded ctx' := by
  unfold encode_instruction at h
  by_cases h0 : op.nOperands = 0
  · rw [if_pos h0] at h
    simp only [Option.some.injEq] at h
    subst h
    exact ⟨bounded_append_one hb.1 (Nat.mod_lt _ (by norm_num)), hb.2⟩
  · rw [if_neg h0] at h
    have hb1 : ctx_bounded { ctx with code := ctx.code ++ [first_word_enc op.opcode
        (if op.nOperands = 2 then op.src.mode.code else 0)
        (if 1 < op.nOperands then op.dst.mode.code else op.src.mode.code) ARE_A] } :=
      ⟨bounded_append_one hb.1 (Nat.mod_lt _ (by norm_num)), hb.2⟩
    by_cases h2 : op.nOperands = 2 ∧ op.src.mode = .registerDirect ∧
        op.dst.mode = .registerDirect
    · rw [if_pos h2] at h
      simp only [Option.some.injEq] at h
      subst h
      exact ⟨bounded_append_one hb1.1 (Nat.mod_lt _ (by norm_num)), hb1.2⟩
    · rw [if_neg h2] at h
      have h1n : 1 ≤ op.nOperands := Nat.one_le_iff_ne_zero.mpr h0
      rw [if_pos h1n] at h
      split at h
      · exact Option.noConfusion h
      · rename_i ctx2 hsrc
        have hb2 := encode_operand_bounded hsrc hb1
        by_cases hn2 : 2 ≤ op.nOperands
        · rw [if_pos hn2] at h
          exact encode_operand_bounded h hb2
        · rw [if_neg hn2] at h
          simp only [Option.some.injEq] at h
          subst h
          exact hb2

theorem encode_data_bounded (ctx : SPCtx) (d : Directive) (hb : ctx_bounded ctx) :
    ctx_bounded (encode_data ctx d) := by
  obtain ⟨hc, hd⟩ := hb
  cases d with
  | dataD values =>
    refine ⟨hc, ?_⟩
    intro w hw
    simp only [encode_data, List.mem_append, List.mem_map] at hw
    rcases hw with h | ⟨v, _, rfl⟩
    · exact hd w h
    · exact wordOfInt_lt v
  | stringD s =>
    refine ⟨hc, ?_⟩
    intro w hw
    simp only [encode_data, List.append_assoc, List.mem_append, List.mem_map,
      List.mem_singleton] at hw
    rcases hw with h | ⟨c, _, rfl⟩ | rfl
    · exact hd w h
    · exact Nat.mod_lt _ (by norm_num)
    · norm_num
  | matD rows cols cells =>
    refine ⟨hc, ?_⟩
    intro w hw
    simp only [encode_data, List.mem_append, List.mem_map] at hw
    rcases hw with h | ⟨v, _, rfl⟩
    · exact hd w h
    · exact wordOfInt_lt v
  | entryD name => exact ⟨hc, hd⟩
  | extrnD name => exact ⟨hc, hd⟩

theorem second_pass_line_bounded {ctx : SPCtx} {line : String} {st : List Symbol}
    {ctx' : SPCtx}
    (h : second_pass_line ctx line st = some ctx') (hb : ctx_bounded ctx) :
    ctx_bounded ctx' := by
  unfold second_pass_line at h
  split at h
  · simp only [Option.some.injEq] at h; subst h; exact hb
  · simp only [Option.some.injEq] at h; subst h; exact hb
  · exact encode_instruction_bounded h hb
  · split at h <;> simp only [Option.some.injEq] at h <;> subst h <;>
      first
        | exact encode_data_bounded _ _ hb
        | exact hb

theorem second_pass_scan_bounded :
    ∀ (lines : List String) (st : List Symbol) (ctx ctx' : SPCtx),
      second_pass_scan lines st ctx = some ctx' → ctx_bounded ctx → ctx_bounded ctx' := by
  intro lines
  induction lines with
  | nil =>
    intro st ctx ctx' h hb
    unfold second_pass_scan at h
    simp only [Option.some.injEq] at h
    subst h
    exact hb
  | cons line rest ih =>
    intro st ctx ctx' h hb
    unfold second_pass_scan at h
    split at h
    · exact Option.noConfusion h
    · rename_i ctx1 h1
      exact ih st ctx1 ctx' h (second_pass_line_bounded h1 hb)

/-- The base-4 digit string of `w` only depends on `w` modulo `4 ^ n`. -/
theorem word_to_base4_digits_mod :
    ∀ (n : Nat) (w : Nat),
      word_to_base4_digits w n = word_to_base4_digits (w % 4 ^ n) n := by
  intro n
  induction n with
  | zero => intro w; rfl
  | succ n ih =>
    intro w
    simp only [word_to_base4_digits]
    congr 1
    · rw [ih (w >>> 2), ih ((w % 4 ^ (n + 1)) >>> 2)]
      have e1 : w >>> 2 = w / 4 := by omega
      have e2 : (w % 4 ^ (n + 1)) >>> 2 = (w % 4 ^ (n + 1)) / 4 := by omega
      rw [e1, e2]
      have h3 : w % 4 ^ (n + 1) / 4 = w / 4 % 4 ^ n := by
        rw [pow_succ, mul_comm]
        exact Nat.mod_mul_right_div_self w 4 (4 ^ n)
      rw [h3, Nat.mod_mod_of_dvd _ dvd_rfl]
    · have b1 : w &&& 3 = w % 4 := Nat.and_pow_two_sub_one_eq_mod w 2
      have b2 : (w % 4 ^ (n + 1)) &&& 3 = (w % 4 ^ (n + 1)) % 4 :=
        Nat.and_pow_two_sub_one_eq_mod _ 2
      have b3 : w % 4 ^ (n + 1) % 4 = w % 4 :=
        Nat.mod_mod_of_dvd w (dvd_pow_self 4 (Nat.succ_ne_zero n))
      rw [b1, b2, b3]

/-- The five base-4 digits emitted for a word expose only its low 10
bits. -/
theorem word_to_base4_low_bits (w : Nat) :
    word_to_base4 w 6 = word_to_base4 (w % 1024) 6 := by
  show word_to_base4_digits w 5 = word_to_base4_digits (w % 1024) 5
  rw [word_to_base4_digits_mod 5 w, word_to_base4_digits_mod 5 (w % 1024)]
  have h45 : (4 : Nat) ^ 5 = 1024 := by norm_num
  rw [h45, Nat.mod_mod_of_dvd _ dvd_rfl]

/-- Claim C3, counterexample: the program `.data -5` is accepted by both
passes, yet the word it stores into the data image is 65531 (the 16-bit
two's complement of -5), whose upper 6 bits are not zero. -/
theorem claim_C3_counterexample :
    (first_pass [".data -5"]).errors = 0 ∧
    second_pass_scan [".data -5"] (first_pass [".data -5"]).symtab ⟨[], [], []⟩ =
      some ⟨[], [65531], []⟩ ∧
    (65531 : Nat) >>> 10 ≠ 0 := by
  exact ⟨by decide, rfl, by decide⟩

/-- Claim C3 (amended): every word the second pass stores fits the 16-bit
container (values are reduced modulo 2 ^ 16, so words produced from
negative values carry nonzero upper bits), and the 5-digit base-4
rendering written to the object file exposes only the low 10 bits of each
stored word. -/
theorem claim_C3 (lines : List String) (st : List Symbol) (ctx' : SPCtx)
    (h : second_pass_scan lines st ⟨[], [], []⟩ = some ctx') :
    (∀ w ∈ ctx'.code, w < 65536 ∧ word_to_base4 w 6 = word_to_base4 (w % 1024) 6) ∧
    (∀ w ∈ ctx'.data, w < 65536 ∧ word_to_base4 w 6 = word_to_base4 (w % 1024) 6) := by
  have hb := second_pass_scan_bounded lines st ⟨[], [], []⟩ ctx' h
    ⟨fun w hw => absurd hw (List.not_mem_nil w),
     fun w hw => absurd hw (List.not_mem_nil w)⟩
  exact ⟨fun w hw => ⟨hb.1 w hw, word_to_base4_low_bits w⟩,
         fun w hw => ⟨hb.2 w hw, word_to_base4_low_bits w⟩⟩

/-- Witness for C3: the run of the second pass on `.data -5`. -/
theorem claim_C3_witness :
    (∀ w ∈ (SPCtx.mk [] [65531] []).code,
        w < 65536 ∧ word_to_base4 w 6 = word_to_base4 (w % 1024) 6) ∧
    (∀ w ∈ (SPCtx.mk [] [65531] []).data,
        w < 65536 ∧ word_to_base4 w 6 = word_to_base4 (w % 1024) 6) :=
  claim_C3 [".data -5"] (first_pass [".data -5"]).symtab ⟨[], [65531], []⟩ rfl

/-! ## C10: first-pass word counts against the emitted layout -/

/-- C `encode_operand` appends exactly `get_extra_words_for_operand` words
to the code image whenever it succeeds. -/
theorem encode_operand_length {ctx : SPCtx} {op : Operand} {st : List Symbol}
    {a : Int} {b : Bool} {ctx' : SPCtx}
    (h : encode_operand ctx op st a b = some ctx') :
    ctx'.code.length = ctx.code.length + get_extra_words_for_operand op := by
  cases op with
  | immediate v =>
    simp only [encode_operand, Option.some.injEq] at h
    subst h
    simp [get_extra_words_for_operand, Operand.mode]
  | direct label =>
    simp only [encode_operand] at h
    cases hs : symtab_lookup st label with
    | none => rw [hs] at h; exact Option.noConfusion h
    | some sym =>
      rw [hs] at h
      dsimp only at h
      split_ifs at h <;>
        (simp only [Option.some.injEq] at h; subst h;
         simp [get_extra_words_for_operand, Operand.mode])
  | matrixAccess label row col =>
    simp only [encode_operand] at h
    cases hs : symtab_lookup st label with
    | none => rw [hs] at h; exact Option.noConfusion h
    | some sym =>
      rw [hs] at h
      simp only [Option.some.injEq] at h
      split_ifs at h <;>
        (subst h; simp [get_extra_words_for_operand, Operand.mode])
  | registerDirect r =>
    simp only [encode_operand, Option.some.injEq] at h
    subst h
    simp [get_extra_words_for_operand, Operand.mode]

/-- Claim C10: whenever `encode_instruction` succeeds, the number of words
it appended to the code image equals `calc_instruction_words` of the
parsed line, so first-pass addresses agree with the emitted layout. -/
theorem claim_C10 (ctx : SPCtx) (op : Operation) (st : List Symbol) (ctx' : SPCtx)
    (h : encode_instruction ctx op st = some ctx') :
    ctx'.code.length = ctx.code.length + calc_instruction_words op := by
  unfold encode_instruction at h
  by_cases h0 : op.nOperands = 0
  · rw [if_pos h0] at h
    simp only [Option.some.injEq] at h
    subst h
    simp [calc_instruction_words, h0]
  · rw [if_neg h0] at h
    by_cases h2 : op.nOperands = 2 ∧ op.src.mode = .registerDirect ∧
        op.dst.mode = .registerDirect
    · rw [if_pos h2] at h
      simp only [Option.some.injEq] at h
      subst h
      simp [calc_instruction_words, h2.1, h2.2.1, h2.2.2, get_extra_words_for_operand]
    · rw [if_neg h2] at h
      have h1n : 1 ≤ op.nOperands := Nat.one_le_iff_ne_zero.mpr h0
      rw [if_pos h1n] at h
      split at h
      · exact Option.noConfusion h
      · rename_i ctx2 hsrc
        have l1 := encode_operand_length hsrc
        simp only [List.length_append, List.length_cons, List.length_nil] at l1
        by_cases hn2 : 2 ≤ op.nOperands
        · rw [if_pos hn2] at h
          have l2 := encode_operand_length h
          simp only [calc_instruction_words, if_neg h2, if_pos h1n, if_pos hn2]
          omega
        · rw [if_neg hn2] at h
          simp only [Option.some.injEq] at h
          subst h
          simp only [calc_instruction_words, if_pos h1n, if_neg hn2, if_neg h2]
          omega

/-- Witness for C10: `mov r1, r2` (two operands sharing a register word)
encoded against the empty symbol table. -/
theorem claim_C10_witness :
    (⟨[60, 72], [], []⟩ : SPCtx).code.length =
      ([] : List Nat).length +
        calc_instruction_words ⟨.mov, 2, .registerDirect 1, .registerDirect 2⟩ :=
  claim_C10 ⟨[], [], []⟩ ⟨.mov, 2, .registerDirect 1, .registerDirect 2⟩ [] ⟨[60, 72], [], []⟩ rfl

end Assembler
